import Mathlib

/-
Shallow embedding of the dependency-resolution node of dephell
(src/dephell/models/dependency.py) together with the collaborator
types it uses (version constraints, release groups, source links,
repositories).  Pure computations of the Python code are translated
into Lean functions; the cached-property state of a node is made
explicit as fields of the node structure, and every read that may
populate a cache is a state-passing function returning the value and
the updated node.
-/

namespace Dephell

/-! ## Versions and orderings -/

/-- Modelled from the spec: releases of one package carry versions that are
totally ordered (repository recency ordering); we embed a version as a
major/minor pair ordered lexicographically. -/
abbrev Version := Nat × Nat

/-- Boolean lexicographic order on versions. -/
def verLe (a b : Version) : Bool :=
  a.1 < b.1 || (a.1 == b.1 && a.2 ≤ b.2)

/-- Lexicographic strict order on lists of characters by code point,
mirroring how Python compares the strings that the grouping key is
built from. -/
def charsLt : List Char → List Char → Bool
  | [], [] => false
  | [], _ :: _ => true
  | _ :: _, [] => false
  | a :: as, b :: bs =>
    if a.toNat < b.toNat then true
    else if b.toNat < a.toNat then false
    else charsLt as bs

/-- Total Boolean order on strings (code-point lexicographic), used to sort
the string forms of a release's dependencies. -/
def strLe (a b : String) : Bool := !(charsLt b.data a.data)

/-! ## Stable sort

Python's builtin sorted is a stable sort; we embed it as insertion sort,
which is stable and computes inside the kernel. -/

/-- Insert an element into a list, in front of the first element that does
not compare strictly below it; used by the stable sort. -/
def insertLe (le : α → α → Bool) (a : α) : List α → List α
  | [] => [a]
  | b :: l => if le a b then a :: b :: l else b :: insertLe le a l

/-- Stable sort with respect to a Boolean total preorder; elements that
compare equal keep their original relative order, as Python's sorted
guarantees. -/
def sortBy (le : α → α → Bool) : List α → List α
  | [] => []
  | a :: l => insertLe le a (sortBy le l)

/-! ## Releases, constraints, links, repositories -/

/-- A release of a package: its name, version, and the string forms of
its dependency list (the code groups releases by sorted str() of the
dependencies, so the embedding keeps the string forms directly). -/
structure Release where
  name : String
  version : Version
  dependencies : List String
deriving DecidableEq, Repr

/-- Comparison operator of a version specifier. -/
inductive Op where
  | ge | gt | le | lt | eq
deriving DecidableEq, Repr

/-- One version specifier, such as >=1.0 or <2.0. -/
structure VerSpec where
  op : Op
  ver : Version
deriving DecidableEq, Repr

/-- A version range: the conjunction of its specifiers. -/
abbrev Range := List VerSpec

/-- Modelled from the spec: the Constraint class is not under src/; §3 and
§4.1 describe it as an ordered mapping from source identifier to a version
range, the effective range being the intersection. -/
abbrev Constraint := List (String × Range)

/-- Satisfaction of one specifier by a version. -/
def specSat (v : Version) (s : VerSpec) : Bool :=
  match s.op with
  | Op.ge => verLe s.ver v
  | Op.gt => verLe s.ver v && !(v == s.ver)
  | Op.le => verLe v s.ver
  | Op.lt => verLe v s.ver && !(v == s.ver)
  | Op.eq => v == s.ver

/-- Satisfaction of a whole range (conjunction of specifiers). -/
def rangeSat (v : Version) (r : Range) : Bool := r.all (specSat v)

/-- Satisfaction of the intersection of every contributed range; with no
sources, every version passes (§4.1). -/
def constraintSat (c : Constraint) (v : Version) : Bool :=
  c.all (fun p => rangeSat v p.2)

namespace Constraint

/-- Modelled from the spec (§4.1): filter returns exactly the releases whose
version satisfies the intersection of all current ranges. -/
def filter (c : Constraint) (rels : List Release) : List Release :=
  rels.filter (fun r => constraintSat c r.version)

/-- Modelled from the spec (§4.1): merge unions the source-to-range
mappings; a source present on both sides must contribute the same range,
otherwise the merge fails with a MergeError. -/
def merge (a b : Constraint) : Except String Constraint :=
  match b with
  | [] => Except.ok a
  | p :: rest =>
    match a.find? (fun q => q.1 == p.1) with
    | some q =>
      if q.2 == p.2 then merge a rest
      else Except.error "constraints for the same source disagree"
    | none => merge (a ++ [p]) rest

/-- Modelled from the spec (§4.1): unapply removes the named source's
contributed range; absent sources are ignored. -/
def unapply (c : Constraint) (source : String) : Constraint :=
  List.filter (fun p => !(p.1 == source)) c

end Constraint

/-- Modelled from the spec (§6): a source link is a tagged variant over
registry, version-control (server, optional revision), and local path;
each carries the package name the link parser extracted. -/
inductive Link where
  | registry (name : String)
  | git (server : String) (rev : Option String) (name : String)
  | path (name : String)
deriving DecidableEq, Repr

/-- Name carried by a link (the attribute link.name of the Python code). -/
def Link.name : Link → String
  | Link.registry n => n
  | Link.git _ _ n => n
  | Link.path n => n

/-- Whether a link is a version-control (GitRepo) link. -/
def Link.isGit : Link → Bool
  | Link.git _ _ _ => true
  | _ => false

/-- Revision pin of a link, when it is a version-control link. -/
def Link.rev : Link → Option String
  | Link.git _ r _ => r
  | _ => none

/-- Server of a link, when it is a version-control link. -/
def Link.server : Link → Option String
  | Link.git s _ _ => some s
  | _ => none

/-- Git test lifted to the optional link field of a node. -/
def optIsGit : Option Link → Bool
  | some l => l.isGit
  | none => false

/-- Revision pin lifted to the optional link field of a node. -/
def optRev : Option Link → Option String
  | some l => l.rev
  | none => none

/-- Server lifted to the optional link field of a node. -/
def optServer : Option Link → Option String
  | some l => l.server
  | none => none

/-- Name lifted to the optional link field, with the empty string for a
missing link (Python treats both None and the empty name as falsy). -/
def optName : Option Link → String
  | some l => l.name
  | none => ""

/-- Python truthiness of an optional revision string: None and the empty
string are falsy. -/
def revTruthy : Option String → Bool
  | none => false
  | some s => !(s == "")

/-- A repository handle: the embedding carries the repository's release
list (with dependency lists already resolved, since grouping always
resolves them before proceeding). -/
structure Repo where
  releases : List Release
deriving DecidableEq, Repr

/-- Modelled from the spec: get_releases is part of the repositories
package, which is not under src/; the spec (§8 round-trip) states that a
release outside the node's range is excluded by the range before grouping
is consulted, so the handle returns its releases filtered by the asking
node's constraint, in the repository's own order. -/
def Repo.get_releases (repo : Repo) (c : Constraint) : List Release :=
  Constraint.filter c repo.releases

/-- Modelled from the spec (§3): a release group holds its sequence
number, the full set of releases sharing one fingerprint (all_releases)
and the constraint-filtered subset (releases). -/
structure Group where
  number : Nat
  all_releases : List Release
  releases : List Release
deriving DecidableEq, Repr

/-- Derived property: a group is empty when its filtered subset is. -/
def Group.empty (g : Group) : Bool := g.releases.isEmpty

/-! ## The dependency node -/

/-- The Dependency node of src/dephell/models/dependency.py.  The two
cached properties (groups and group) become explicit optional fields:
cachedGroups mirrors the groups entry of the instance dictionary, and
cachedGroup mirrors the group entry, stored as the index of the chosen
group inside the cached tuple so that object identity (refiltering a
group in place updates the chosen group too) is preserved; some none
records that the selection ran and found no viable group (the Python
cached_property caches the None return value).  fetchCount counts how
many times release metadata was fetched from the repository. -/
structure Dependency where
  raw_name : String
  constraint : Constraint
  repo : Repo
  link : Option Link
  cachedGroups : Option (List Group)
  cachedGroup : Option (Option Nat)
  fetchCount : Nat
deriving DecidableEq, Repr

/-- Fullmatch of the pipenv-hash regex [a-f0-9]\x7b7\x7d: exactly seven
characters, each a lowercase hex digit. -/
def rex_hash_fullmatch (s : String) : Bool :=
  s.data.length == 7 &&
    s.data.all (fun c => (97 ≤ c.toNat && c.toNat ≤ 102) || (48 ≤ c.toNat && c.toNat ≤ 57))

namespace Dependency

/-- The from_params constructor (lines 67-87).  The link argument stands
for the result of parse_link(url) and the repo argument for the chosen
repository handle (get_repo is an external collaborator); the constraint
argument is the already-built Constraint.  Caches start unset. -/
def from_params (raw_name : String) (link : Option Link)
    (constraint : Constraint) (repo : Repo) : Dependency :=
  let rn :=
    match link with
    | some l => if !(l.name == "") && rex_hash_fullmatch raw_name then l.name else raw_name
    | none => raw_name
  { raw_name := rn
    constraint := constraint
    repo := repo
    link := link
    cachedGroups := none
    cachedGroup := none
    fetchCount := 0 }

/-- Grouping key of a release (line 123): the string forms of its
dependencies, sorted, joined with a vertical bar. -/
def fingerprint (r : Release) : String :=
  String.intercalate "|" (sortBy strLe r.dependencies)

/-- Insertion into the defaultdict of line 121: the first release with a
new key appends a fresh bucket, later releases with the same key are
added to the existing bucket; insertion order of keys is preserved. -/
def addToBuckets (bs : List (String × List Release)) (k : String) (r : Release) :
    List (String × List Release) :=
  match bs with
  | [] => [(k, [r])]
  | (k0, rs) :: rest =>
    if k0 == k then (k0, rs ++ [r]) :: rest
    else (k0, rs) :: addToBuckets rest k r

/-- The grouping pass of lines 120-124 over a release list. -/
def buildBuckets (rels : List Release) : List (String × List Release) :=
  rels.foldl (fun bs r => addToBuckets bs (fingerprint r) r) []

/-- Most recent version inside a bucket, mirroring max over the release
set (releases compare by version). -/
def maxVer (rs : List Release) : Version :=
  rs.foldl (fun acc r => if verLe acc r.version then r.version else acc) (0, 0)

/-- Sort key direction of line 127: sorted(key=max, reverse=True) puts
the bucket with the newer most-recent release first, keeping the original
order of buckets whose keys compare equal (Python's sort is stable). -/
def bucketGE (a b : String × List Release) : Bool :=
  verLe (maxVer b.2) (maxVer a.2)

/-- The groups computation of lines 114-136: fetch the releases (the
repository hands back the node's releases, already filtered by its
constraint), group them by fingerprint, sort the buckets by most recent
release descending, number them, and filter each group's releases by the
node's constraint (the trailing _actualize_groups call of line 135). -/
def computeGroups (d : Dependency) : List Group :=
  let rels := d.repo.get_releases d.constraint
  let buckets := buildBuckets rels
  let sorted := sortBy bucketGE buckets
  sorted.enum.map (fun p =>
    { number := p.1
      all_releases := p.2.2
      releases := Constraint.filter d.constraint p.2.2 })

/-- Read of the cached property groups: return the cached tuple if
present, otherwise compute, cache, and count the metadata fetch. -/
def groups (d : Dependency) : List Group × Dependency :=
  match d.cachedGroups with
  | some gs => (gs, d)
  | none =>
    let gs := computeGroups d
    (gs, { d with cachedGroups := some gs, fetchCount := d.fetchCount + 1 })

/-- Read of the cached property group (lines 138-144): on first access
scan the groups for the first non-empty one and cache the outcome (also
when the outcome is that there is none); later reads return the cached
selection without consulting the repository. -/
def group (d : Dependency) : Option Group × Dependency :=
  match d.cachedGroup with
  | some sel => (sel.bind (fun i => (d.cachedGroups.getD [])[i]?), d)
  | none =>
    let p := groups d
    let sel := p.1.findIdx? (fun g => !g.empty)
    (sel.bind (fun i => p.1[i]?), { p.2 with cachedGroup := some sel })

/-- The locked property (lines 151-153): whether the group entry is in
the instance dictionary. -/
def locked (d : Dependency) : Bool := d.cachedGroup.isSome

/-- The compat property (lines 155-164).  When a selection is cached the
code evaluates self.group.empty; if the cached selection is None this is
an attribute access on None and raises, which the embedding returns as an
error value.  When no selection is cached it scans the groups (computing
and caching them if needed) for a non-empty one. -/
def compat (d : Dependency) : Except String Bool × Dependency :=
  match d.cachedGroup with
  | some (some i) =>
    match (d.cachedGroups.getD [])[i]? with
    | some g => (Except.ok (!g.empty), d)
    | none => (Except.error "invalid cached group index", d)
  | some none => (Except.error "AttributeError: NoneType has no attribute empty", d)
  | none =>
    let p := groups d
    (Except.ok (p.1.any (fun g => !g.empty)), p.2)

/-- The unlock method (lines 174-177): discard the cached selection. -/
def unlock (d : Dependency) : Dependency := { d with cachedGroup := none }

/-- The _actualize_groups method (lines 219-228) as called with force:
when groups are cached, refilter every group's releases from its
all_releases under the current constraint; when they are not cached and
force is set, reading self.groups first computes and caches them (a
fetch), after which they are refiltered; without force nothing happens. -/
def actualizeGroups (d : Dependency) (force : Bool) : Dependency :=
  match d.cachedGroups with
  | some gs =>
    { d with cachedGroups := some (gs.map (fun g =>
        { g with releases := Constraint.filter d.constraint g.all_releases })) }
  | none =>
    if force then
      let gs := computeGroups d
      { d with
          cachedGroups := some (gs.map (fun g =>
            { g with releases := Constraint.filter d.constraint g.all_releases }))
          fetchCount := d.fetchCount + 1 }
    else d

/-- The merge method (lines 179-204).  Mutations performed before an
exception stay visible on the returned state, as they do in Python; the
result pairs the raised MergeError message, if any, with the node state
after the call. -/
def merge (self dep : Dependency) : Option String × Dependency :=
  if optIsGit self.link && optIsGit dep.link &&
      revTruthy (optRev self.link) && revTruthy (optRev dep.link) &&
      !(optRev self.link == optRev dep.link) then
    (some "links point to different revisions", self)
  else if optIsGit self.link && optIsGit dep.link &&
      !(optServer self.link == optServer dep.link) then
    (some "links point to different servers", self)
  else
    let s1 :=
      if optIsGit self.link && !(optIsGit dep.link) &&
          !(revTruthy (optRev self.link)) && self.cachedGroups.isNone then
        { self with repo := dep.repo }
      else self
    let s2 :=
      if !(optIsGit self.link) && optIsGit dep.link then
        { s1 with link := dep.link, repo := dep.repo }
      else s1
    match Constraint.merge s2.constraint dep.constraint with
    | Except.error e => (some e, s2)
    | Except.ok c => (none, actualizeGroups { s2 with constraint := c } true)

/-- The unapply method (lines 206-210): drop the named source from the
constraint, refilter the cached groups, and discard the selection when
one was cached. -/
def unapply (d : Dependency) (source : String) : Dependency :=
  let d1 := { d with constraint := Constraint.unapply d.constraint source }
  let d2 := actualizeGroups d1 true
  if d2.locked then unlock d2 else d2

end Dependency

/-! ## Auxiliary definitions used by the statements -/

/-- Prefix test on character lists. -/
def prefOf : List Char → List Char → Bool
  | [], _ => true
  | _ :: _, [] => false
  | a :: as, b :: bs => a == b && prefOf as bs

/-- Substring test on character lists. -/
def subIn (n : List Char) : List Char → Bool
  | [] => prefOf n []
  | b :: bs => prefOf n (b :: bs) || subIn n bs

/-- Whether the first string occurs inside the second. -/
def strContains (needle hay : String) : Bool := subIn needle.data hay.data

/-- Deduplication keeping first occurrences, used to state the sorted,
deduplicated fingerprint the spec describes. -/
def dedupAux (seen : List String) : List String → List String
  | [] => []
  | a :: l => if seen.contains a then dedupAux seen l else a :: dedupAux (a :: seen) l

/-- Modelled from the spec wording: the sorted, deduplicated string
representation of a dependency list. -/
def sortedDedup (deps : List String) : List String := dedupAux [] (sortBy strLe deps)

/-- The sixteen lowercase hexadecimal digit characters. -/
def hexChars : List Char := "0123456789abcdef".data

/-- Modelled from the claim wording: a string of exactly seven lowercase
hexadecimal characters. -/
def sevenLowercaseHex (s : String) : Bool :=
  s.data.length == 7 && s.data.all (fun c => hexChars.contains c)

/-! ## Concrete fixtures (the repository scenarios of the spec) -/

/-- Release 1.0 of pkgA, no dependencies. -/
def relA10 : Release := { name := "pkga", version := (1, 0), dependencies := [] }

/-- Release 1.5 of pkgA, depending on pkgB. -/
def relA15 : Release := { name := "pkga", version := (1, 5), dependencies := ["pkgB"] }

/-- Release 1.9 of pkgA, depending on pkgB. -/
def relA19 : Release := { name := "pkga", version := (1, 9), dependencies := ["pkgB"] }

/-- Release 2.0 of pkgA, depending on pkgB and pkgC. -/
def relA20 : Release := { name := "pkga", version := (2, 0), dependencies := ["pkgB", "pkgC"] }

/-- The fake repository of the round-trip scenario. -/
def repoA : Repo := { releases := [relA10, relA15, relA19, relA20] }

/-- The range >=1.0,<2.0. -/
def rangeA : Range := [⟨Op.ge, (1, 0)⟩, ⟨Op.lt, (2, 0)⟩]

/-- The node of the round-trip scenario. -/
def depA : Dependency := Dependency.from_params "pkga" none [("root", rangeA)] repoA

/-- A second node for the same package contributing a fresh source. -/
def depOther : Dependency := Dependency.from_params "pkga" none [("dep", ([] : Range))] repoA

/-- The round-trip node after its group has been selected (locked). -/
def depALocked : Dependency := (Dependency.group depA).2

/-- The range ==1.0 of the unsatisfiable scenario. -/
def rangeEq10 : Range := [⟨Op.eq, (1, 0)⟩]

/-- The unsatisfiable node: range ==1.0 against a repository offering only 2.0. -/
def depU : Dependency := Dependency.from_params "pkga" none [("root", rangeEq10)] { releases := [relA20] }

/-- An unpinned version-control link. -/
def linkGitNoRev : Link := Link.git "github.com/o/r" none "pkga"

/-- A node with an unpinned version-control link. -/
def depGit : Dependency := Dependency.from_params "pkga" (some linkGitNoRev) [("root", rangeA)] repoA

/-- The same node after its groups have been computed but before any
group has been selected. -/
def depGitWithGroups : Dependency := (Dependency.groups depGit).2

/-- A smaller registry repository, distinct from repoA. -/
def repoB : Repo := { releases := [relA10] }

/-- A registry-sourced node for the same package. -/
def depRegistry : Dependency :=
  Dependency.from_params "pkga" (some (Link.registry "pkga")) [("dep", ([] : Range))] repoB

/-- A node pinned to version-control revision abc123. -/
def depGitRevA : Dependency :=
  Dependency.from_params "pkga" (some (Link.git "github.com/o/r" (some "abc123") "pkga"))
    [("root", ([] : Range))] repoA

/-- A node pinned to version-control revision def456 on the same server. -/
def depGitRevB : Dependency :=
  Dependency.from_params "pkga" (some (Link.git "github.com/o/r" (some "def456") "pkga"))
    [("dep", ([] : Range))] repoA

/-- First release of the multiplicity scenario: dependency list [pkgB]. -/
def relM1 : Release := { name := "pkgm", version := (1, 0), dependencies := ["pkgB"] }

/-- Second release of the multiplicity scenario: dependency list
[pkgB, pkgB], equal to the first after deduplication. -/
def relM2 : Release := { name := "pkgm", version := (1, 1), dependencies := ["pkgB", "pkgB"] }

/-- Node over the two multiplicity-scenario releases, no constraint sources. -/
def depM : Dependency := Dependency.from_params "pkgm" none [] { releases := [relM1, relM2] }

/-- First release of the tie scenario: version 1.0, no dependencies. -/
def relT1 : Release := { name := "pkgt", version := (1, 0), dependencies := [] }

/-- Second release of the tie scenario: the same version 1.0 with a
different dependency list, so its group ties on the most-recent key. -/
def relT2 : Release := { name := "pkgt", version := (1, 0), dependencies := ["x"] }

/-- Node of the tie scenario. -/
def depT : Dependency := Dependency.from_params "pkgt" none [] { releases := [relT1, relT2] }

/-! ## Properties of the stable sort -/

theorem perm_insertLe (le : α → α → Bool) (a : α) (l : List α) :
    (insertLe le a l).Perm (a :: l) := by
  induction l with
  | nil => simp [insertLe]
  | cons b t ih =>
    by_cases h : le a b = true
    · simp [insertLe, h]
    · simp only [insertLe, h, if_false, Bool.false_eq_true, ite_false]
      exact (List.Perm.cons b ih).trans (List.Perm.swap a b t)

theorem perm_sortBy (le : α → α → Bool) (l : List α) : (sortBy le l).Perm l := by
  induction l with
  | nil => simp [sortBy]
  | cons a t ih => exact (perm_insertLe le a (sortBy le t)).trans (List.Perm.cons a ih)

theorem pairwise_insertLe (le : α → α → Bool)
    (htrans : ∀ a b c, le a b = true → le b c = true → le a c = true)
    (htot : ∀ a b, le a b = true ∨ le b a = true)
    (a : α) (l : List α) (hl : l.Pairwise (fun x y => le x y = true)) :
    (insertLe le a l).Pairwise (fun x y => le x y = true) := by
  induction l with
  | nil => simp [insertLe]
  | cons b t ih =>
    rcases List.pairwise_cons.mp hl with ⟨hb, ht⟩
    by_cases h : le a b = true
    · simp only [insertLe, h, ite_true]
      refine List.pairwise_cons.mpr ⟨?_, hl⟩
      intro x hx
      rcases List.mem_cons.mp hx with rfl | hx
      · exact h
      · exact htrans a b x h (hb x hx)
    · have hba : le b a = true := (htot a b).resolve_left h
      simp only [insertLe, h, if_false, Bool.false_eq_true, ite_false]
      refine List.pairwise_cons.mpr ⟨?_, ih ht⟩
      intro x hx
      rcases List.mem_cons.mp ((perm_insertLe le a t).mem_iff.mp hx) with rfl | hx
      · exact hba
      · exact hb x hx

theorem pairwise_sortBy (le : α → α → Bool)
    (htrans : ∀ a b c, le a b = true → le b c = true → le a c = true)
    (htot : ∀ a b, le a b = true ∨ le b a = true)
    (l : List α) : (sortBy le l).Pairwise (fun x y => le x y = true) := by
  induction l with
  | nil => simp [sortBy]
  | cons a t ih => exact pairwise_insertLe le htrans htot a (sortBy le t) ih

theorem sublist_insertLe_self (le : α → α → Bool) (a : α) (l : List α) :
    l.Sublist (insertLe le a l) := by
  induction l with
  | nil => simp [insertLe]
  | cons b t ih =>
    by_cases h : le a b = true
    · simp only [insertLe, h, ite_true]
      exact List.Sublist.cons a (List.Sublist.refl (b :: t))
    · simp only [insertLe, h, if_false, Bool.false_eq_true, ite_false]
      exact List.Sublist.cons₂ b ih

theorem cons_sublist_insertLe (le : α → α → Bool) (a : α) :
    ∀ (t c : List α), c.Sublist t → (∀ x ∈ c, le a x = true) →
      (a :: c).Sublist (insertLe le a t) := by
  intro t
  induction t with
  | nil =>
    intro c hc _
    have hnil : c = [] := List.sublist_nil.mp hc
    subst hnil
    simp [insertLe]
  | cons b t ih =>
    intro c hc hall
    by_cases h : le a b = true
    · simp only [insertLe, h, ite_true]
      exact List.Sublist.cons₂ a hc
    · simp only [insertLe, h, if_false, Bool.false_eq_true, ite_false]
      cases hc with
      | cons _ hct => exact List.Sublist.cons b (ih c hct hall)
      | cons₂ _ hct =>
        exact absurd (hall b (List.mem_cons_self b _)) (by simpa using h)

theorem sublist_sortBy (le : α → α → Bool) (c l : List α)
    (hc : c.Pairwise (fun x y => le x y = true)) (hsub : c.Sublist l) :
    c.Sublist (sortBy le l) := by
  induction l generalizing c with
  | nil =>
    have hnil : c = [] := List.sublist_nil.mp hsub
    subst hnil
    simp [sortBy]
  | cons a t ih =>
    cases hsub with
    | cons _ h =>
      exact (ih c hc h).trans (sublist_insertLe_self le a (sortBy le t))
    | cons₂ _ h =>
      rcases List.pairwise_cons.mp hc with ⟨hall, hc2⟩
      exact cons_sublist_insertLe le a (sortBy le t) _ (ih _ hc2 h) hall

/-! ## Totality and transitivity of the comparison keys -/

theorem verLe_total (a b : Version) : verLe a b = true ∨ verLe b a = true := by
  rcases a with ⟨a1, a2⟩
  rcases b with ⟨b1, b2⟩
  simp only [verLe, Bool.or_eq_true, decide_eq_true_eq, Bool.and_eq_true, beq_iff_eq]
  omega

theorem verLe_trans (a b c : Version) (h1 : verLe a b = true) (h2 : verLe b c = true) :
    verLe a c = true := by
  rcases a with ⟨a1, a2⟩
  rcases b with ⟨b1, b2⟩
  rcases c with ⟨c1, c2⟩
  simp only [verLe, Bool.or_eq_true, decide_eq_true_eq, Bool.and_eq_true, beq_iff_eq] at h1 h2 ⊢
  omega

theorem bucketGE_total (a b : String × List Release) :
    Dependency.bucketGE a b = true ∨ Dependency.bucketGE b a = true :=
  (verLe_total (Dependency.maxVer b.2) (Dependency.maxVer a.2)).imp id id

theorem bucketGE_trans (a b c : String × List Release)
    (h1 : Dependency.bucketGE a b = true) (h2 : Dependency.bucketGE b c = true) :
    Dependency.bucketGE a c = true :=
  verLe_trans _ _ _ h2 h1

/-! ## Field-preservation lemmas for the node operations -/

theorem actualizeGroups_cachedGroup (d : Dependency) (f : Bool) :
    (Dependency.actualizeGroups d f).cachedGroup = d.cachedGroup := by
  unfold Dependency.actualizeGroups
  cases d.cachedGroups <;> cases f <;> simp

theorem actualizeGroups_repo (d : Dependency) (f : Bool) :
    (Dependency.actualizeGroups d f).repo = d.repo := by
  unfold Dependency.actualizeGroups
  cases d.cachedGroups <;> cases f <;> simp

theorem actualizeGroups_link (d : Dependency) (f : Bool) :
    (Dependency.actualizeGroups d f).link = d.link := by
  unfold Dependency.actualizeGroups
  cases d.cachedGroups <;> cases f <;> simp

theorem actualizeGroups_isSome (d : Dependency) :
    (Dependency.actualizeGroups d true).cachedGroups.isSome = true := by
  unfold Dependency.actualizeGroups
  cases d.cachedGroups <;> simp

theorem merge_cachedGroup (self other : Dependency) :
    ((Dependency.merge self other).2).cachedGroup = self.cachedGroup := by
  unfold Dependency.merge
  split
  · rfl
  · split
    · rfl
    · split <;> split <;>
        cases hm : Constraint.merge self.constraint other.constraint <;>
          simp [hm, actualizeGroups_cachedGroup]

/-! ## Well-formedness of the fingerprint buckets -/

theorem mem_addToBuckets_keys (bs : List (String × List Release)) (k k0 : String) (r : Release) :
    k0 ∈ (Dependency.addToBuckets bs k r).map Prod.fst ↔ k0 ∈ bs.map Prod.fst ∨ k0 = k := by
  induction bs with
  | nil => simp [Dependency.addToBuckets]
  | cons p rest ih =>
    rcases p with ⟨k1, rs⟩
    by_cases h : k1 == k
    · have hk : k1 = k := by simpa using h
      subst hk
      simp only [Dependency.addToBuckets, beq_self_eq_true, ite_true, List.map_cons,
        List.mem_cons]
      tauto
    · simp only [Dependency.addToBuckets, h, Bool.false_eq_true, ite_false, List.map_cons,
        List.mem_cons, ih]
      tauto

theorem nodup_addToBuckets_keys (bs : List (String × List Release)) (k : String) (r : Release)
    (h : (bs.map Prod.fst).Nodup) : ((Dependency.addToBuckets bs k r).map Prod.fst).Nodup := by
  induction bs with
  | nil => simp [Dependency.addToBuckets]
  | cons p rest ih =>
    rcases p with ⟨k1, rs⟩
    rw [List.map_cons, List.nodup_cons] at h
    obtain ⟨hnot, hrest⟩ := h
    by_cases hb : (k1 == k) = true
    · rw [show Dependency.addToBuckets ((k1, rs) :: rest) k r = (k1, rs ++ [r]) :: rest by
        simp [Dependency.addToBuckets, hb]]
      rw [List.map_cons, List.nodup_cons]
      exact ⟨hnot, hrest⟩
    · rw [show Dependency.addToBuckets ((k1, rs) :: rest) k r =
          (k1, rs) :: Dependency.addToBuckets rest k r by simp [Dependency.addToBuckets, hb]]
      rw [List.map_cons, List.nodup_cons]
      refine ⟨?_, ih hrest⟩
      intro hmem
      rcases (mem_addToBuckets_keys rest k k1 r).mp hmem with h1 | h1
      · exact hnot h1
      · exact hb (by simp [h1])

theorem fingerprint_mem_addToBuckets (bs : List (String × List Release)) (k : String)
    (r : Release) (hk : Dependency.fingerprint r = k)
    (h : ∀ p ∈ bs, ∀ x ∈ p.2, Dependency.fingerprint x = p.1) :
    ∀ p ∈ Dependency.addToBuckets bs k r, ∀ x ∈ p.2, Dependency.fingerprint x = p.1 := by
  induction bs with
  | nil =>
    intro p hp x hx
    simp only [Dependency.addToBuckets, List.mem_singleton] at hp
    subst hp
    simp only [List.mem_singleton] at hx
    subst hx
    exact hk
  | cons p0 rest ih =>
    rcases p0 with ⟨k1, rs⟩
    intro p hp x hx
    by_cases hb : k1 == k
    · have hk1 : k1 = k := by simpa using hb
      simp only [Dependency.addToBuckets, hb, ite_true] at hp
      rcases List.mem_cons.mp hp with rfl | hp
      · rcases List.mem_append.mp hx with hx | hx
        · exact h (k1, rs) (List.mem_cons_self _ _) x hx
        · simp only [List.mem_singleton] at hx
          subst hx
          rw [hk, hk1]
      · exact h p (List.mem_cons_of_mem _ hp) x hx
    · simp only [Dependency.addToBuckets, hb, Bool.false_eq_true, ite_false] at hp
      rcases List.mem_cons.mp hp with rfl | hp
      · exact h (k1, rs) (List.mem_cons_self _ _) x hx
      · exact ih (fun q hq => h q (List.mem_cons_of_mem _ hq)) p hp x hx

theorem foldBuckets_wf (rels : List Release) :
    ∀ (bs : List (String × List Release)),
      (∀ p ∈ bs, ∀ x ∈ p.2, Dependency.fingerprint x = p.1) →
      (bs.map Prod.fst).Nodup →
      (∀ p ∈ rels.foldl (fun b r => Dependency.addToBuckets b (Dependency.fingerprint r) r) bs,
          ∀ x ∈ p.2, Dependency.fingerprint x = p.1) ∧
      ((rels.foldl (fun b r => Dependency.addToBuckets b (Dependency.fingerprint r) r) bs).map
          Prod.fst).Nodup := by
  induction rels with
  | nil => intro bs h1 h2; exact ⟨h1, h2⟩
  | cons r rest ih =>
    intro bs h1 h2
    exact ih _ (fingerprint_mem_addToBuckets bs _ r rfl h1) (nodup_addToBuckets_keys bs _ r h2)

theorem buildBuckets_wf (rels : List Release) :
    (∀ p ∈ Dependency.buildBuckets rels, ∀ x ∈ p.2, Dependency.fingerprint x = p.1) ∧
    ((Dependency.buildBuckets rels).map Prod.fst).Nodup :=
  foldBuckets_wf rels [] (by simp) (by simp)

/-- The sorted bucket list underlying a node's computed groups. -/
def sortedBuckets (d : Dependency) : List (String × List Release) :=
  sortBy Dependency.bucketGE (Dependency.buildBuckets (d.repo.get_releases d.constraint))

theorem sortedBuckets_wf (d : Dependency) :
    (∀ p ∈ sortedBuckets d, ∀ x ∈ p.2, Dependency.fingerprint x = p.1) ∧
    ((sortedBuckets d).map Prod.fst).Nodup := by
  obtain ⟨h1, h2⟩ := buildBuckets_wf (d.repo.get_releases d.constraint)
  refine ⟨?_, ?_⟩
  · intro p hp
    exact h1 p ((perm_sortBy _ _).mem_iff.mp hp)
  · exact ((perm_sortBy Dependency.bucketGE _).map Prod.fst).symm.nodup h2

theorem computeGroups_getElem (d : Dependency) (i : Nat) :
    (Dependency.computeGroups d)[i]? =
      ((sortedBuckets d)[i]?).map (fun b =>
        { number := i
          all_releases := b.2
          releases := Constraint.filter d.constraint b.2 }) := by
  unfold Dependency.computeGroups sortedBuckets
  rw [List.getElem?_map, List.getElem?_enum]
  cases (sortBy Dependency.bucketGE
      (Dependency.buildBuckets (d.repo.get_releases d.constraint)))[i]? <;> rfl

theorem constraintMerge_error (b a : Constraint) (e : String)
    (h : Constraint.merge a b = Except.error e) :
    e = "constraints for the same source disagree" := by
  induction b generalizing a with
  | nil => simp [Constraint.merge] at h
  | cons p rest ih =>
    unfold Constraint.merge at h
    cases hf : List.find? (fun q => q.1 == p.1) a with
    | some q =>
      simp only [hf] at h
      by_cases hq : (q.2 == p.2) = true
      · rw [if_pos hq] at h
        exact ih a h
      · rw [if_neg hq] at h
        injection h with h
        exact h.symm
    | none =>
      simp only [hf] at h
      exact ih _ h

theorem merge_cachedGroups_isSome (self other : Dependency)
    (hg : self.cachedGroups.isSome = true) :
    ((Dependency.merge self other).2).cachedGroups.isSome = true := by
  unfold Dependency.merge
  split
  · exact hg
  · split
    · exact hg
    · split <;> split <;>
        cases hm : Constraint.merge self.constraint other.constraint <;>
          simp [hm, actualizeGroups_isSome, hg]

theorem computeGroups_map_all (d : Dependency) :
    (Dependency.computeGroups d).map Group.all_releases = (sortedBuckets d).map Prod.snd := by
  unfold Dependency.computeGroups
  rw [List.map_map]
  have h1 : (Group.all_releases ∘ fun p : Nat × (String × List Release) =>
      ({ number := p.1, all_releases := p.2.2,
         releases := Constraint.filter d.constraint p.2.2 } : Group)) =
      (Prod.snd ∘ Prod.snd) := rfl
  rw [h1, ← List.map_map, List.enum_map_snd]
  rfl

/-! ## Claims -/

/-- C1 counterexample: a locked node merged with another node for the same
package, with no MergeError raised, remains locked — the claim states it
would be left unlocked with the selection discarded. -/
theorem C1_counterexample :
    Dependency.locked depALocked = true ∧
    (Dependency.merge depALocked depOther).1 = none ∧
    Dependency.locked ((Dependency.merge depALocked depOther).2) = true := by decide

/-- C1 amended: merge leaves the lock state and the cached group selection
unchanged — a locked node stays locked with the same selection; the cached
groups are not discarded (their releases are refiltered in place under the
merged constraint).  Only unapply and unlock discard the selection. -/
theorem C1_theorem (self other : Dependency)
    (h : Dependency.locked self = true) (hg : self.cachedGroups.isSome = true) :
    Dependency.locked ((Dependency.merge self other).2) = true ∧
    ((Dependency.merge self other).2).cachedGroup = self.cachedGroup ∧
    ((Dependency.merge self other).2).cachedGroups.isSome = true := by
  refine ⟨?_, merge_cachedGroup self other, merge_cachedGroups_isSome self other hg⟩
  unfold Dependency.locked at h ⊢
  rw [merge_cachedGroup]
  exact h

/-- C1 witness: the amended statement at the concrete locked round-trip
node merged with a fresh-source node. -/
theorem C1_witness :
    Dependency.locked ((Dependency.merge depALocked depOther).2) = true ∧
    ((Dependency.merge depALocked depOther).2).cachedGroup = depALocked.cachedGroup ∧
    ((Dependency.merge depALocked depOther).2).cachedGroups.isSome = true :=
  C1_theorem depALocked depOther (by decide) (by decide)

/-- C2: the round-trip scenario — the node for pkgA with range >=1.0,<2.0
over releases 1.0 (no deps), 1.5 (pkgB), 1.9 (pkgB), 2.0 (pkgB, pkgC)
yields exactly two groups, the first holding releases 1.5 and 1.9 with
fingerprint pkgB and the second holding 1.0 with the empty fingerprint;
release 2.0 is excluded by the range before grouping, and the selected
group is the one holding 1.5 and 1.9. -/
theorem C2_theorem :
    (Dependency.groups depA).1.map Group.all_releases = [[relA15, relA19], [relA10]] ∧
    (Dependency.groups depA).1.map Group.number = [0, 1] ∧
    Dependency.fingerprint relA15 = "pkgB" ∧
    Dependency.fingerprint relA19 = "pkgB" ∧
    Dependency.fingerprint relA10 = "" ∧
    relA20 ∉ Repo.get_releases repoA depA.constraint ∧
    ((Dependency.group depA).1).map Group.all_releases = some [relA15, relA19] := by decide

/-- C5 counterexample: on a node whose constraint admits no viable group,
reading group caches the no-group outcome, after which locked is true even
though no group has been chosen — the claim states locked holds only when
a group has been chosen. -/
theorem C5_counterexample :
    (Dependency.group depU).1 = none ∧
    Dependency.locked ((Dependency.group depU).2) = true ∧
    ((Dependency.group depU).2).cachedGroup = some none := by decide

/-- C5 amended: locked is true exactly when the group selection has been
computed and cached (possibly as no group); once locked, reading group
returns the cached selection, leaves the node unchanged (no re-fetch), and
yields the same result whatever the repository would now return. -/
theorem C5_theorem (d : Dependency) (r : Repo) (h : Dependency.locked d = true) :
    d.cachedGroup.isSome = true ∧
    Dependency.group d = ((Dependency.group d).1, d) ∧
    (Dependency.group { d with repo := r }).1 = (Dependency.group d).1 := by
  unfold Dependency.locked at h
  obtain ⟨sel, hsel⟩ := Option.isSome_iff_exists.mp h
  refine ⟨h, ?_, ?_⟩
  · simp [Dependency.group, hsel]
  · simp [Dependency.group, hsel]

/-- C5 witness: the amended statement at the locked round-trip node, with
the repository swapped for a different one. -/
theorem C5_witness :
    depALocked.cachedGroup.isSome = true ∧
    Dependency.group depALocked = ((Dependency.group depALocked).1, depALocked) ∧
    (Dependency.group { depALocked with repo := repoB }).1 = (Dependency.group depALocked).1 :=
  C5_theorem depALocked repoB (by decide)

/-- C6: the unsatisfiable node (range ==1.0 against a repository offering
only 2.0).  Reading compat first returns false and reading group then
returns none with no exception; but reading group first caches the
no-group outcome and the subsequent compat read evaluates empty on None,
which raises — the claim (and the spec) promise no exception in either
order, so the code diverges from the spec here. -/
theorem C6_theorem :
    (Dependency.compat depU).1 = Except.ok false ∧
    (Dependency.group ((Dependency.compat depU).2)).1 = none ∧
    (Dependency.group depU).1 = none ∧
    (Dependency.compat ((Dependency.group depU).2)).1 =
      Except.error "AttributeError: NoneType has no attribute empty" :=
  ⟨rfl, by decide, by decide, rfl⟩

/-- C3 counterexample: two releases whose dependency lists are equal after
sorting and deduplicating (pkgB versus pkgB, pkgB) end up in two distinct
groups, because the code's grouping key sorts but does not deduplicate —
the claim states they would share one group. -/
theorem C3_counterexample :
    sortedDedup relM1.dependencies = sortedDedup relM2.dependencies ∧
    Dependency.fingerprint relM1 ≠ Dependency.fingerprint relM2 ∧
    (Dependency.computeGroups depM).map Group.all_releases = [[relM2], [relM1]] := by decide

/-- C3 amended: two releases are placed in the same group exactly when
their fingerprints — the sorted (not deduplicated) string representations
of their dependency lists joined with a vertical bar — are equal; lists
differing only in order share a group, lists differing in multiplicity do
not. -/
theorem C3_theorem (d : Dependency) (i j : Nat) (g1 g2 : Group) (r1 r2 : Release)
    (hi : (Dependency.computeGroups d)[i]? = some g1)
    (hj : (Dependency.computeGroups d)[j]? = some g2)
    (h1 : r1 ∈ g1.all_releases) (h2 : r2 ∈ g2.all_releases) :
    Dependency.fingerprint r1 = Dependency.fingerprint r2 ↔ i = j := by
  rw [computeGroups_getElem] at hi hj
  cases hbi : (sortedBuckets d)[i]? with
  | none => rw [hbi] at hi; exact absurd hi (by simp)
  | some bi =>
  cases hbj : (sortedBuckets d)[j]? with
  | none => rw [hbj] at hj; exact absurd hj (by simp)
  | some bj =>
  rw [hbi] at hi
  rw [hbj] at hj
  simp only [Option.map_some'] at hi hj
  obtain rfl : (⟨i, bi.2, Constraint.filter d.constraint bi.2⟩ : Group) = g1 :=
    Option.some_inj.mp hi
  obtain rfl : (⟨j, bj.2, Constraint.filter d.constraint bj.2⟩ : Group) = g2 :=
    Option.some_inj.mp hj
  obtain ⟨hwf, hnodup⟩ := sortedBuckets_wf d
  have hmi : bi ∈ sortedBuckets d := List.getElem?_mem hbi
  have hmj : bj ∈ sortedBuckets d := List.getElem?_mem hbj
  have hf1 : Dependency.fingerprint r1 = bi.1 := hwf bi hmi r1 h1
  have hf2 : Dependency.fingerprint r2 = bj.1 := hwf bj hmj r2 h2
  obtain ⟨hilen, higet⟩ := List.getElem?_eq_some.mp hbi
  obtain ⟨hjlen, hjget⟩ := List.getElem?_eq_some.mp hbj
  constructor
  · intro hf
    have hkey : bi.1 = bj.1 := by rw [← hf1, ← hf2, hf]
    have hlen : i < ((sortedBuckets d).map Prod.fst).length := by simpa using hilen
    have hlen2 : j < ((sortedBuckets d).map Prod.fst).length := by simpa using hjlen
    have hgets : ((sortedBuckets d).map Prod.fst).get ⟨i, hlen⟩ =
        ((sortedBuckets d).map Prod.fst).get ⟨j, hlen2⟩ := by
      simp [List.get_eq_getElem, List.getElem_map, higet, hjget, hkey]
    have hfin := hnodup.get_inj_iff.mp hgets
    simpa using congrArg Fin.val hfin
  · rintro rfl
    rw [hf1, hf2]
    rw [hbi] at hbj
    obtain rfl : bi = bj := Option.some_inj.mp hbj
    rfl

/-- C3 witness: the amended statement at the round-trip node, for the two
releases 1.5 and 1.9 that live in group 0. -/
theorem C3_witness :
    Dependency.fingerprint relA15 = Dependency.fingerprint relA19 ↔ (0 : Nat) = 0 :=
  C3_theorem depA 0 0
    (⟨0, [relA15, relA19], [relA15, relA19]⟩ : Group)
    (⟨0, [relA15, relA19], [relA15, relA19]⟩ : Group)
    relA15 relA19 (by decide) (by decide) (by decide) (by decide)

/-- C4 counterexample: a node with an unpinned version-control link whose
groups have been computed but with no group selected (not locked), merged
with a registry-sourced node, keeps its own repository handle — the claim
states that while not locked the handle would be replaced. -/
theorem C4_counterexample :
    Dependency.locked depGitWithGroups = false ∧
    optIsGit depGitWithGroups.link = true ∧
    revTruthy (optRev depGitWithGroups.link) = false ∧
    optIsGit depRegistry.link = false ∧
    (Dependency.merge depGitWithGroups depRegistry).1 = none ∧
    ((Dependency.merge depGitWithGroups depRegistry).2).repo = repoA ∧
    depRegistry.repo = repoB ∧
    repoA ≠ repoB := by decide

/-- C4 amended: with an unpinned version-control self and a registry
other, merge replaces self's repository handle with other's exactly when
self's groups have not yet been computed; once the groups are cached
(whether or not a group has been selected) the handle is kept. -/
theorem C4_theorem (self other : Dependency)
    (hs : optIsGit self.link = true) (ho : optIsGit other.link = false)
    (hr : revTruthy (optRev self.link) = false) :
    ((Dependency.merge self other).2).repo =
      if self.cachedGroups.isNone then other.repo else self.repo := by
  unfold Dependency.merge
  simp only [hs, ho, hr, Bool.and_false, Bool.false_and, Bool.and_true, Bool.true_and,
    Bool.not_true, Bool.not_false, Bool.false_eq_true, ite_false, if_false]
  cases hseq : self.cachedGroups.isNone <;>
    cases hm : Constraint.merge self.constraint other.constraint <;>
      simp [hm, hseq, actualizeGroups_repo]

/-- C4 witness: the amended statement at the fresh unpinned
version-control node (groups not yet computed) and the registry node. -/
theorem C4_witness :
    ((Dependency.merge depGit depRegistry).2).repo =
      if depGit.cachedGroups.isNone then depRegistry.repo else depGit.repo :=
  C4_theorem depGit depRegistry (by decide) (by decide) (by decide)

/-- C7 counterexample: merging two nodes pinned to revisions abc123 and
def456 on the same server raises the MergeError with the fixed message,
and that message names neither revision — the claim states the conflict
names both revisions. -/
theorem C7_counterexample :
    (Dependency.merge depGitRevA depGitRevB).1 = some "links point to different revisions" ∧
    strContains "abc123" "links point to different revisions" = false ∧
    strContains "def456" "links point to different revisions" = false := by decide

/-- C7 amended: for two version-control nodes with truthy revision pins on
the same server, merge raises the MergeError with message links point to
different revisions (the message does not include the revisions) exactly
when the pins differ; with equal pins this error is never raised. -/
theorem C7_theorem (self other : Dependency)
    (hs : optIsGit self.link = true) (ho : optIsGit other.link = true)
    (h1 : revTruthy (optRev self.link) = true) (h2 : revTruthy (optRev other.link) = true)
    (hsrv : optServer self.link = optServer other.link) :
    Dependency.merge self other = (some "links point to different revisions", self) ↔
      optRev self.link ≠ optRev other.link := by
  by_cases hrev : (optRev self.link == optRev other.link) = true
  · have heq : optRev self.link = optRev other.link := by simpa using hrev
    constructor
    · intro hmerge
      exfalso
      have hsb : (optServer self.link == optServer other.link) = true := by simp [hsrv]
      unfold Dependency.merge at hmerge
      simp only [hs, ho, h1, h2, hrev, hsb, Bool.and_true, Bool.true_and, Bool.not_true,
        Bool.and_false, Bool.false_and, Bool.false_eq_true, ite_false, if_false,
        Bool.not_false] at hmerge
      cases hm : Constraint.merge self.constraint other.constraint with
      | error e =>
        rw [hm] at hmerge
        have hmsg := constraintMerge_error other.constraint self.constraint e hm
        have : some e = some "links point to different revisions" :=
          congrArg Prod.fst hmerge
        rw [hmsg] at this
        exact absurd (Option.some_inj.mp this) (by decide)
      | ok c =>
        rw [hm] at hmerge
        have : (none : Option String) = some "links point to different revisions" :=
          congrArg Prod.fst hmerge
        exact Option.noConfusion this
    · intro hne
      exact absurd heq hne
  · have hne : optRev self.link ≠ optRev other.link := by simpa using hrev
    constructor
    · intro _
      exact hne
    · intro _
      unfold Dependency.merge
      simp [hs, ho, h1, h2, hrev]

/-- C7 witness: the amended statement applied to the two concretely pinned
nodes, giving the raised error. -/
theorem C7_witness :
    Dependency.merge depGitRevA depGitRevB =
      (some "links point to different revisions", depGitRevA) :=
  (C7_theorem depGitRevA depGitRevB (by decide) (by decide) (by decide) (by decide)
    (by decide)).mpr (by decide)

/-- C10: when self's link is not version-control and other's is, merge
adopts other's link and repository handle unconditionally — whatever
other's revision pin and whatever groups or selection self has cached,
and even when the subsequent constraint merge fails. -/
theorem C10_theorem (self other : Dependency)
    (h1 : optIsGit self.link = false) (h2 : optIsGit other.link = true) :
    ((Dependency.merge self other).2).link = other.link ∧
    ((Dependency.merge self other).2).repo = other.repo := by
  unfold Dependency.merge
  simp only [h1, h2, Bool.false_and, Bool.true_and, Bool.and_false, Bool.and_true,
    Bool.not_false, Bool.not_true, Bool.false_eq_true, ite_false, if_false]
  cases hm : Constraint.merge self.constraint other.constraint <;>
    simp [hm, actualizeGroups_link, actualizeGroups_repo]

/-- C10 witness: the registry node merged with the pinned version-control
node adopts its link and repository. -/
theorem C10_witness :
    ((Dependency.merge depRegistry depGitRevA).2).link = depGitRevA.link ∧
    ((Dependency.merge depRegistry depGitRevA).2).repo = depGitRevA.repo :=
  C10_theorem depRegistry depGitRevA (by decide) (by decide)

/-- C8: groups are numbered 0, 1, 2, ... in the order produced, that order
is descending in the most-recent member release, reading groups twice from
the same node returns the identical cached value and state, and two
buckets whose most-recent releases tie appear in the output in the order
the repository's release list produced them. -/
theorem C8_theorem (d : Dependency) (b1 b2 : String × List Release) (i : Nat) (g : Group)
    (hg : (Dependency.computeGroups d)[i]? = some g)
    (ht1 : Dependency.bucketGE b1 b2 = true) (ht2 : Dependency.bucketGE b2 b1 = true)
    (hsub : [b1, b2].Sublist (Dependency.buildBuckets (d.repo.get_releases d.constraint))) :
    g.number = i ∧
    ((Dependency.computeGroups d).map Group.all_releases).Pairwise
      (fun a b => verLe (Dependency.maxVer b) (Dependency.maxVer a) = true) ∧
    Dependency.groups ((Dependency.groups d).2) =
      ((Dependency.groups d).1, (Dependency.groups d).2) ∧
    [b1.2, b2.2].Sublist ((Dependency.computeGroups d).map Group.all_releases) := by
  refine ⟨?_, ?_, ?_, ?_⟩
  · rw [computeGroups_getElem] at hg
    cases hb : (sortedBuckets d)[i]? with
    | none => rw [hb] at hg; exact absurd hg (by simp)
    | some b =>
      rw [hb] at hg
      simp only [Option.map_some'] at hg
      obtain rfl : (⟨i, b.2, Constraint.filter d.constraint b.2⟩ : Group) = g :=
        Option.some_inj.mp hg
      rfl
  · rw [computeGroups_map_all]
    have hp := pairwise_sortBy Dependency.bucketGE bucketGE_trans bucketGE_total
      (Dependency.buildBuckets (d.repo.get_releases d.constraint))
    exact List.Pairwise.map Prod.snd (fun a b h => h) hp
  · cases hc : d.cachedGroups <;> simp [Dependency.groups, hc]
  · have hpair : [b1, b2].Pairwise (fun x y => Dependency.bucketGE x y = true) := by
      simp [List.pairwise_cons, ht1]
    have hsorted := sublist_sortBy Dependency.bucketGE [b1, b2] _ hpair hsub
    rw [computeGroups_map_all]
    simpa using hsorted.map Prod.snd

/-- C8 witness: the tie scenario — two buckets whose most-recent releases
share version 1.0 keep the repository order, numbering starts at 0, the
mapped group order is pairwise descending, and a second groups read
returns the cache. -/
theorem C8_witness :
    (⟨0, [relT1], [relT1]⟩ : Group).number = 0 ∧
    ((Dependency.computeGroups depT).map Group.all_releases).Pairwise
      (fun a b => verLe (Dependency.maxVer b) (Dependency.maxVer a) = true) ∧
    Dependency.groups ((Dependency.groups depT).2) =
      ((Dependency.groups depT).1, (Dependency.groups depT).2) ∧
    [("", [relT1]).2, ("x", [relT2]).2].Sublist
      ((Dependency.computeGroups depT).map Group.all_releases) :=
  C8_theorem depT ("", [relT1]) ("x", [relT2]) 0 ⟨0, [relT1], [relT1]⟩
    (by decide) (by decide) (by decide) (by decide)

theorem charClass_eq (c : Char) :
    ((97 ≤ c.toNat && c.toNat ≤ 102) || (48 ≤ c.toNat && c.toNat ≤ 57)) =
      hexChars.contains c := by
  rw [Bool.eq_iff_iff, List.elem_iff]
  simp only [Bool.or_eq_true, Bool.and_eq_true, decide_eq_true_eq]
  constructor
  · rintro (⟨h1, h2⟩ | ⟨h1, h2⟩) <;>
    · obtain ⟨n, hn⟩ : ∃ n, c.toNat = n := ⟨_, rfl⟩
      rw [hn] at h1 h2
      have hce : Char.ofNat n = c := by rw [← hn]; exact Char.ofNat_toNat c
      interval_cases n <;> (rw [← hce]; decide)
  · intro hm
    fin_cases hm <;> decide

theorem rex_hash_fullmatch_eq (s : String) :
    rex_hash_fullmatch s = sevenLowercaseHex s := by
  unfold rex_hash_fullmatch sevenLowercaseHex
  have h : (fun c => (97 ≤ c.toNat && c.toNat ≤ 102) || (48 ≤ c.toNat && c.toNat ≤ 57)) =
      (fun c => hexChars.contains c) := funext charClass_eq
  rw [h]

/-- C9: from_params keeps the supplied raw_name unless the parsed link
carries a non-empty name and the supplied raw_name is exactly seven
lowercase hexadecimal characters (a pipenv-generated hash), in which case
the link's name is used instead. -/
theorem C9_theorem (raw_name : String) (link : Option Link) (c : Constraint) (r : Repo) :
    (Dependency.from_params raw_name link c r).raw_name =
      if !(optName link == "") && sevenLowercaseHex raw_name then optName link
      else raw_name := by
  cases link with
  | none => simp [Dependency.from_params, optName]
  | some l =>
    rw [← rex_hash_fullmatch_eq]
    simp [Dependency.from_params, optName]

end Dephell
